import Mathlib

/-!
Verification of the Logos frontend repository.

This development gives a shallow embedding of the view logic of the two
React applications in the repository (the eval-server observability
dashboard and the banking-assistant UI) and settles the frozen claims
about them.  Every definition is translated directly from the TypeScript
source; the state of each component is modelled as a record of the values
held by its `useState` hooks, and each event handler or effect is a pure
function from that state (plus the settled network results) to the next
state.  JavaScript numbers are modelled as `Nat`/`Int`/`ℚ` as appropriate
for the exact values the code manipulates.
-/

namespace Logos

/-! ## Data model (src/eval_server/frontend/src/types.ts, lines 1-52) -/

structure DatabaseStatus where
  connected : Bool
  status : String
  trace_count : Nat
deriving Repr, DecidableEq

structure MemoryStatus where
  trace_count : Nat
deriving Repr, DecidableEq

structure SystemStatus where
  ok : Bool
  database : DatabaseStatus
  memory : MemoryStatus
  data_source : String
deriving Repr, DecidableEq

structure TraceRow where
  trace_id : String
  span_count : Nat
  error_count : Int
  duration_ms : Int
deriving Repr, DecidableEq

structure InterventionRequest where
  function_name : String
  url : Option String := none
deriving Repr, DecidableEq

structure InterventionEvent where
  timestamp : String
  request : InterventionRequest
  content_preview : String
  content_length : Nat
  decision : String
  final_output : String
deriving Repr, DecidableEq

/-- `TraceEvent` from types.ts (the free-form `metadata` record is omitted:
no claim concerns it and it is never read by the components). -/
structure TraceEvent where
  trace_id : String
  span_id : String
  parent_span_id : Option String := none
  event_type : String
  name : String
  category : Option String := none
  status : String
  timestamp : String
  server_ts : Option String := none
  duration_ms : Option Int := none
  args_preview : Option String := none
  kwargs_preview : Option String := none
  result_preview : Option String := none
  error_type : Option String := none
  error_message : Option String := none
deriving Repr, DecidableEq

/-- Shape returned by `apiClient.getDashboardData` (api.ts, lines 30-42). -/
structure DashboardData where
  total : Nat
  trace_count : Nat
  traces : List TraceRow
  insights : Option String := none
deriving Repr, DecidableEq

/-! ## Promise.allSettled outcomes -/

/-- One settled outcome of `Promise.allSettled`: either fulfilled with a
value or rejected with a reason. -/
inductive Settled (α : Type) where
  | fulfilled (value : α)
  | rejected (reason : String)
deriving Repr, DecidableEq

def Settled.isRejected {α : Type} : Settled α → Bool
  | .fulfilled _ => false
  | .rejected _ => true

/-- How `Promise.allSettled` records the outcome of one awaited call: a
normal return settles as fulfilled, a thrown error as rejected. -/
def settledOf {α : Type} : Except String α → Settled α
  | .ok v => .fulfilled v
  | .error e => .rejected e

/-! ## Dashboard component state (Dashboard.tsx, lines 6-13) -/

structure DashState where
  status : Option SystemStatus
  traces : List TraceRow
  interventions : List InterventionEvent
  loading : Bool
  error : Option String
  currentPage : Int
deriving Repr, DecidableEq

/-- Initial `useState` values of `Dashboard` (Dashboard.tsx, lines 7-12). -/
def dashboardInit : DashState :=
  { status := none, traces := [], interventions := [], loading := true,
    error := none, currentPage := 1 }

def tracesPerPage : Nat := 10

/-- The body of `fetchData` in `Dashboard` (Dashboard.tsx, lines 16-63):
given the three settled results it performs the per-result `setStatus` /
`setTraces` / `setInterventions` updates, sets the top-level error exactly
when both core endpoints rejected, and finally clears `loading`. -/
def fetchData (statusResult : Settled SystemStatus)
    (dashboardResult : Settled DashboardData)
    (interventionsResult : Settled (List InterventionEvent))
    (st : DashState) : DashState :=
  { st with
    status := match statusResult with
      | .fulfilled v => some v
      | .rejected _ => none
    traces := match dashboardResult with
      | .fulfilled v => v.traces
      | .rejected _ => []
    interventions := match interventionsResult with
      | .fulfilled v => v.take 5
      | .rejected _ => []
    error := if statusResult.isRejected && dashboardResult.isRejected then
        some "Failed to fetch dashboard data"
      else none
    loading := false }

/-! ## Dashboard pagination (Dashboard.tsx, lines 90-109) -/

/-- `Math.ceil(traces.length / tracesPerPage)` (Dashboard.tsx, line 94). -/
def totalPages (traces : List TraceRow) : Nat :=
  Nat.ceil ((traces.length : ℚ) / (tracesPerPage : ℚ))

/-- `(currentPage - 1) * tracesPerPage` (Dashboard.tsx, line 95). -/
def startIndex (currentPage : Int) : Int :=
  (currentPage - 1) * (tracesPerPage : Int)

/-- `startIndex + tracesPerPage` (Dashboard.tsx, line 96). -/
def endIndex (currentPage : Int) : Int :=
  startIndex currentPage + (tracesPerPage : Int)

/-- Index resolution of `Array.prototype.slice`: a negative index counts
from the end, and indices are clamped to `[0, length]`. -/
def jsIndex (len : Nat) (i : Int) : Nat :=
  if i < 0 then ((len : Int) + i).toNat else min len i.toNat

/-- `Array.prototype.slice(s, e)`: the elements with indices in
`[jsIndex s, jsIndex e)`. -/
def jsSlice {α : Type} (l : List α) (s e : Int) : List α :=
  (l.take (jsIndex l.length e)).drop (jsIndex l.length s)

/-- `traces.slice(startIndex, endIndex)` (Dashboard.tsx, line 97). -/
def currentTraces (traces : List TraceRow) (currentPage : Int) : List TraceRow :=
  jsSlice traces (startIndex currentPage) (endIndex currentPage)

/-- `goToPrevious` (Dashboard.tsx, lines 103-105). -/
def goToPrevious (currentPage : Int) : Int := max 1 (currentPage - 1)

/-- `goToNext` (Dashboard.tsx, lines 107-109). -/
def goToNext (traces : List TraceRow) (currentPage : Int) : Int :=
  min (totalPages traces : Int) (currentPage + 1)

/-! ## Dashboard derived statistics (Dashboard.tsx, lines 90-91 and 380) -/

/-- `status ? (connected ? db.trace_count : memory.trace_count) : 0`
(Dashboard.tsx, line 90). -/
def totalTraces (status : Option SystemStatus) : Nat :=
  match status with
  | some st => if st.database.connected then st.database.trace_count
      else st.memory.trace_count
  | none => 0

/-- `traces.filter(t => t.error_count > 0).length` (Dashboard.tsx, line 91). -/
def errorTraces (traces : List TraceRow) : Nat :=
  (traces.filter (fun t => 0 < t.error_count)).length

/-- The displayed error rate
`traces.length > 0 ? Math.round(errorTraces / traces.length * 100) : 0`
(Dashboard.tsx, line 380).  `Math.round` rounds half away from zero
upwards, which is Mathlib's `round` on `ℚ`. -/
def errorRate (traces : List TraceRow) : Int :=
  if 0 < traces.length then
    round ((errorTraces traces : ℚ) / (traces.length : ℚ) * 100)
  else 0

/-- The pagination property asserted by claim C2, for a trace list and a
current page `p ≥ 1`: the page shows exactly the traces at zero-based
indices `(p-1)*10` through `p*10 - 1`, ten per page, the total page count
is the ceiling of `length / 10` (computed as `(length + 9) / 10`), the
Previous action never goes below page 1 and the Next action never goes
above the total page count. -/
def C2Statement (traces : List TraceRow) (p : Int) : Prop :=
  currentTraces traces p = (traces.drop ((p - 1).toNat * 10)).take 10
  ∧ (∀ j : Nat, (currentTraces traces p).get? j =
      if j < 10 then traces.get? ((p - 1).toNat * 10 + j) else none)
  ∧ tracesPerPage = 10
  ∧ totalPages traces = (traces.length + 9) / 10
  ∧ 1 ≤ goToPrevious p
  ∧ (∀ q : Int, goToNext traces q ≤ (totalPages traces : Int))

/-! ## ApiClient (src/eval_server/frontend/src/api.ts) -/

/-- The part of a `fetch` `Response` that `fetchJson` inspects: the `ok`
flag, the numeric `status`, and the already-parsed JSON body. -/
structure Response (β : Type) where
  ok : Bool
  status : Nat
  body : β
deriving Repr, DecidableEq

/-- `ApiClient.fetchJson` (api.ts, lines 12-18): throw an `Error` naming
the HTTP status when the response is not ok, otherwise return the parsed
body.  A thrown error is modelled as `Except.error` carrying the error
message. -/
def fetchJson {β : Type} (response : Response β) : Except String β :=
  if !response.ok then
    Except.error ("HTTP error! status: " ++ toString response.status)
  else
    Except.ok response.body

/-- Body shape of `GET /trace/:id` (api.ts, lines 44-51). -/
structure TracePayload where
  trace_id : String
  count : Nat
  events : List TraceEvent
deriving Repr, DecidableEq

/-- `ApiClient.getTraceDetails` (api.ts, lines 44-51): fetch the trace
payload and project out its `events` field. -/
def getTraceDetails (response : Response TracePayload) :
    Except String (List TraceEvent) :=
  (fetchJson response).map (fun r => r.events)

/-- `ApiClient.getInterventionHistory` (api.ts, lines 21-23). -/
def getInterventionHistory (response : Response (List InterventionEvent)) :
    Except String (List InterventionEvent) :=
  fetchJson response

/-- `ApiClient.getSystemStatus` (api.ts, lines 26-28). -/
def getSystemStatus (response : Response SystemStatus) :
    Except String SystemStatus :=
  fetchJson response

/-- `ApiClient.getDashboardData` (api.ts, lines 30-42). -/
def getDashboardData (response : Response DashboardData) :
    Except String DashboardData :=
  fetchJson response

/-! ## TraceView component state (types.ts, lines 58-67) -/

structure TVState where
  events : List TraceEvent
  loading : Bool
  error : Option String
  expandedPreviews : Finset Nat
  diagnosing : Bool
  diagnosis : Option String
  diagnosisError : Option String
  showDiagnosisModal : Bool

/-- Initial `useState` values of `TraceView` (types.ts, lines 60-67). -/
def traceViewInit : TVState :=
  { events := [], loading := true, error := none, expandedPreviews := ∅,
    diagnosing := false, diagnosis := none, diagnosisError := none,
    showDiagnosisModal := false }

/-- The effect of `fetchTraceDetails` in `TraceView` (types.ts, lines
69-87) on the component state, given the outcome of the awaited
`getTraceDetails` call: the `try`/`catch` turns a thrown error into the
in-component error message and the `finally` clears `loading`. -/
def runFetchTraceDetails (result : Except String (List TraceEvent))
    (st : TVState) : TVState :=
  match result with
  | .ok traceData => { st with events := traceData, error := none, loading := false }
  | .error _ =>
      { st with error := some "Failed to fetch trace details", loading := false }

/-! ## AgentGraph data and component state (types.ts, lines 597-629) -/

structure Node where
  id : String
  label : String
  type : String
  x : Option Nat := none
  y : Option Nat := none
deriving Repr, DecidableEq

structure Edge where
  source : String
  target : String
  label : String
deriving Repr, DecidableEq

structure GraphData where
  nodes : List Node
  edges : List Edge
  description : String
deriving Repr, DecidableEq

/-- The zoom/pan view state of `AgentGraph`; JavaScript numbers are
modelled as exact rationals. -/
structure AGView where
  zoom : ℚ
  panX : ℚ
  panY : ℚ
deriving Repr, DecidableEq

/-- Initial view: `useState(1)` for zoom and `useState(0)` for both pan
offsets (types.ts, lines 625-627). -/
def agInitView : AGView := { zoom := 1, panX := 0, panY := 0 }

structure AGState where
  graphData : Option GraphData
  loading : Bool
  error : Option String
  view : AGView
  isDragging : Bool
  lastMousePos : Int × Int
deriving Repr, DecidableEq

/-- Initial `useState` values of `AgentGraph` (types.ts, lines 621-629). -/
def agentGraphInit : AGState :=
  { graphData := none, loading := true, error := none, view := agInitView,
    isDragging := false, lastMousePos := (0, 0) }

/-- The user interactions of `AgentGraph` that touch the view state. -/
inductive AGAction where
  | wheel (deltaYPos : Bool)
  | zoomInBtn
  | zoomOutBtn
  | panDrag (dx dy : ℚ)
  | resetBtn
deriving Repr, DecidableEq

/-- One interaction step on the view state, translated from
`handleWheel` / `zoomIn` / `zoomOut` / `handleMouseMove` / `resetView`
(types.ts, lines 655-693). -/
def agStep (v : AGView) : AGAction → AGView
  | .wheel deltaYPos =>
      let zoomFactor : ℚ := if deltaYPos then 0.9 else 1.1
      { v with zoom := max 0.1 (min 3 (v.zoom * zoomFactor)) }
  | .zoomInBtn => { v with zoom := min 3 (v.zoom * 1.2) }
  | .zoomOutBtn => { v with zoom := max 0.1 (v.zoom / 1.2) }
  | .panDrag dx dy => { v with panX := v.panX + dx, panY := v.panY + dy }
  | .resetBtn => { zoom := 1, panX := 0, panY := 0 }

/-- The view state after a finite sequence of interactions starting from
the initial view. -/
def agRun (acts : List AGAction) : AGView := acts.foldl agStep agInitView

/-! ## AgentGraph node positioning (types.ts, lines 695-728) -/

/-- The fixed position lookup table of `positionNodes`
(types.ts, lines 700-709). -/
def positions (id : String) : Option (Nat × Nat) :=
  if id = "__start__" then some (400, 50)
  else if id = "plan_workflow" then some (400, 150)
  else if id = "guardrails" then some (200, 250)
  else if id = "db_agent" then some (300, 350)
  else if id = "viz_agent" then some (400, 350)
  else if id = "web_agent" then some (500, 350)
  else if id = "respond" then some (400, 450)
  else if id = "__end__" then some (400, 550)
  else none

/-- A JavaScript `Map<string, Node>`, modelled as an association list in
insertion order: inserting an existing key overwrites the value in place,
a new key is appended. -/
abbrev NodeMap := List (String × Node)

def mapSet (m : NodeMap) (k : String) (v : Node) : NodeMap :=
  if m.any (fun e => e.1 = k) then
    m.map (fun e => if e.1 = k then (k, v) else e)
  else m ++ [(k, v)]

/-- `new Map(nodes.map(n => [n.id, {...n}]))` (types.ts, line 697). -/
def buildNodeMap (nodes : List Node) : NodeMap :=
  nodes.foldl (fun m n => mapSet m n.id n) []

def setPos (n : Node) (p : Nat × Nat) : Node :=
  { n with x := some p.1, y := some p.2 }

/-- The fallback coordinates `(100 + (index % 5) * 150,
100 + Math.floor(index / 5) * 100)` (types.ts, lines 721-722). -/
def fallbackPos (index : Nat) : Nat × Nat :=
  (100 + (index % 5) * 150, 100 + (index / 5) * 100)

/-- The coordinates `positionNodes` assigns to the node with the given
id: the lookup table if the id is known, otherwise the fallback formula
at `nodes.findIndex(n => n.id === node.id)`.  The `findIndex` call always
succeeds because the id comes from `nodes` itself. -/
def targetPos (nodes : List Node) (id : String) : Nat × Nat :=
  match positions id with
  | some p => p
  | none => fallbackPos (nodes.findIdx (fun n => n.id == id))

/-- One iteration of the `nodes.forEach` loop of `positionNodes`
(types.ts, lines 712-725): look the node up in the map and, when found,
mutate its stored coordinates to `targetPos`. -/
def loopStep (nodes : List Node) (m : NodeMap) (node : Node) : NodeMap :=
  if m.any (fun e => e.1 = node.id) then
    m.map (fun e =>
      if e.1 = node.id then (e.1, setPos e.2 (targetPos nodes node.id)) else e)
  else m

/-- `positionNodes` (types.ts, lines 695-728): build the id-keyed map,
mutate the mapped node for each input node (table position for known ids,
fallback position otherwise), and return `Array.from(nodeMap.values())`.
The `edges` parameter is unused, as in the source. -/
def positionNodes (nodes : List Node) (edges : List Edge) : List Node :=
  let nodeMap := buildNodeMap nodes
  (nodes.foldl (loopStep nodes) nodeMap).map (fun e => e.2)

/-- `ApiClient.getAgentGraph` (api.ts, lines 72-78); the response body
carries nodes (without coordinates), edges and a description. -/
def getAgentGraph (response : Response GraphData) :
    Except String GraphData :=
  fetchJson response

/-- The effect of `fetchGraphData` in `AgentGraph` (types.ts, lines
631-653) on the component state, given the outcome of the awaited
`getAgentGraph` call: on success the nodes are laid out with
`positionNodes` and stored with the error cleared; the `try`/`catch`
turns a thrown error into the in-component error message; the `finally`
clears `loading`. -/
def runFetchGraphData (result : Except String GraphData)
    (st : AGState) : AGState :=
  match result with
  | .ok data =>
      { st with
        graphData := some { data with nodes := positionNodes data.nodes data.edges },
        error := none, loading := false }
  | .error _ =>
      { st with error := some "Failed to fetch agent graph", loading := false }

/-- Stated from the words of claim C5: every node whose id is in the
lookup table gets the table coordinates, and every other node at input
index `i` gets `x = 100 + (i % 5) * 150` and `y = 100 + ⌊i / 5⌋ * 100`,
with id, label and type unchanged. -/
def claimPositionAux (i : Nat) : List Node → List Node
  | [] => []
  | n :: rest =>
      (match positions n.id with
       | some p => setPos n p
       | none => setPos n (fallbackPos i)) :: claimPositionAux (i + 1) rest

/-- Stated from the words of claim C5 (see `claimPositionAux`). -/
def claimPositionNodes (nodes : List Node) : List Node :=
  claimPositionAux 0 nodes

/-- The positioning property asserted by claim C5. -/
def C5Statement (nodes : List Node) (edges : List Edge) : Prop :=
  positionNodes nodes edges = claimPositionNodes nodes

/-! ## ResultCard chart dispatch
(src/frontend/src/components/ResultCard.tsx, lines 10-26) -/

/-- The `chartjs` chart data passed through to the chart component;
`data.labels` and `data.datasets` are opaque payload carried unchanged. -/
structure ChartData where
  labels : List String := []
  datasets : List (List Int) := []
deriving Repr, DecidableEq

/-- The `chartjs` field of a `ResultCard` payload. -/
structure ChartPayload where
  type : Option String := none
  data : Option ChartData := none
  options : Option (List (String × String)) := none
deriving Repr, DecidableEq

/-- What `renderChart` renders: a `<Line>`, `<Bar>` or `<Pie>` element
with its `data` and `options` props. -/
inductive RenderedElem where
  | lineChart (data : ChartData) (options : List (String × String))
  | barChart (data : ChartData) (options : List (String × String))
  | pieChart (data : ChartData) (options : List (String × String))
deriving Repr, DecidableEq

/-- JavaScript `s || dflt` on an optional string: `undefined` and the
empty string are falsy. -/
def jsStrOr (v : Option String) (dflt : String) : String :=
  match v with
  | none => dflt
  | some s => if s.isEmpty then dflt else s

/-- JavaScript `String.prototype.toLowerCase`: lowercase every
character. -/
def jsToLower (s : String) : String := ⟨s.data.map Char.toLower⟩

/-- `renderChart` (ResultCard.tsx, lines 16-26): `null` without a
`chartjs` payload; otherwise a `<Line>` exactly when
`(type || 'bar').toLowerCase()` is `'line'` and a `<Bar>` in every other
case. -/
def renderChart (chartPayload : Option ChartPayload) : Option RenderedElem :=
  match chartPayload with
  | none => none
  | some cp =>
      let type := jsToLower (jsStrOr cp.type "bar")
      let data := cp.data.getD { labels := [], datasets := [] }
      let options := cp.options.getD []
      if type = "line" then some (.lineChart data options)
      else some (.barChart data options)


/-! ## formatDiagnosisText (types.ts, lines 188-240): the regex split -/

/-- The three-backtick fence delimiter of the split regex
(types.ts, line 190). -/
def ticks : List Char := ['`', '`', '`']

/-- The JavaScript regex character class `\w`. -/
def isWordChar (c : Char) : Bool := c.isAlphanum || c == '_'

/-- Scan for the earliest closing ``` terminating the lazy body group
`([\s\S]*?)`: returns the body text before it and the text after it, or
`none` when no closing fence exists. -/
def findClose : List Char → Option (List Char × List Char)
  | [] => none
  | c :: rest =>
      if (c :: rest).take 3 = ticks then some ([], rest.drop 2)
      else
        match findClose rest with
        | some (pre, r) => some (c :: pre, r)
        | none => none

/-- Match the fence regex ```(\w+)?\n([\s\S]*?)``` at the start of the
text.  The greedy optional `(\w+)?` group must be followed directly by a
newline — backtracking cannot rescue a failed match because `\w` never
matches a newline — and the lazy body ends at the earliest closing ```.
Returns the language group (`none` when it did not participate), the
body group and the remaining text. -/
def matchFenceAt (cs : List Char) :
    Option (Option (List Char) × List Char × List Char) :=
  if cs.take 3 = ticks then
    match (cs.drop 3).dropWhile isWordChar with
    | c :: rest3 =>
        if c = '\n' then
          match findClose rest3 with
          | some (code, rest4) =>
              some (if ((cs.drop 3).takeWhile isWordChar).isEmpty then none
                else some ((cs.drop 3).takeWhile isWordChar), code, rest4)
          | none => none
        else none
    | [] => none
  else none

/-- The leftmost match of the fence regex, as regex scanning tries each
start position from left to right: the text before the match, the two
capture groups, and the text after the match. -/
def findMatch : List Char →
    Option (List Char × Option (List Char) × List Char × List Char)
  | [] => none
  | c :: cs =>
      match matchFenceAt (c :: cs) with
      | some (lang, code, rest) => some ([], lang, code, rest)
      | none =>
          match findMatch cs with
          | some (pre, lang, code, rest) => some (c :: pre, lang, code, rest)
          | none => none

/-- The characters consumed by the optional language group. -/
def langChars : Option (List Char) → List Char
  | none => []
  | some w => w

/-- Soundness of `findClose`: a successful scan decomposes the text. -/
theorem findClose_append (cs : List Char) :
    ∀ pre rest, findClose cs = some (pre, rest) → cs = pre ++ ticks ++ rest := by
  induction cs with
  | nil => intro pre rest h; simp [findClose] at h
  | cons c cs ih =>
      intro pre rest h
      rw [findClose] at h
      by_cases hcond : (c :: cs).take 3 = ticks
      · rw [if_pos hcond] at h
        simp only [Option.some.injEq, Prod.mk.injEq] at h
        obtain ⟨hpre, hrest⟩ := h
        subst hpre
        subst hrest
        have htd := List.take_append_drop 3 (c :: cs)
        rw [hcond] at htd
        rw [← htd]
        simp
      · rw [if_neg hcond] at h
        cases hfc : findClose cs with
        | none => rw [hfc] at h; simp at h
        | some pr =>
            obtain ⟨pre', r'⟩ := pr
            rw [hfc] at h
            simp only [Option.some.injEq, Prod.mk.injEq] at h
            obtain ⟨hpre, hrest⟩ := h
            subst hpre
            subst hrest
            have hcs := ih pre' r' hfc
            rw [List.cons_append, hcs]
            simp

theorem findClose_length (cs pre rest : List Char)
    (h : findClose cs = some (pre, rest)) : rest.length + 3 ≤ cs.length := by
  have hc := findClose_append cs pre rest h
  rw [hc]
  simp only [List.length_append, List.length_cons, List.append_assoc, ticks,
    List.length_nil]
  omega

/-- Soundness of `matchFenceAt`: a match at the start decomposes the
text into the full fence followed by the rest. -/
theorem matchFenceAt_append (cs : List Char) (lang : Option (List Char))
    (code rest : List Char) (h : matchFenceAt cs = some (lang, code, rest)) :
    cs = ticks ++ langChars lang ++ '\n' :: (code ++ ticks ++ rest) := by
  unfold matchFenceAt at h
  by_cases hticks : cs.take 3 = ticks
  · rw [if_pos hticks] at h
    cases hdrop : (cs.drop 3).dropWhile isWordChar with
    | nil => rw [hdrop] at h; simp at h
    | cons c0 rest3 =>
        rw [hdrop] at h
        simp only [] at h
        by_cases hc0 : c0 = '\n'
        · rw [if_pos hc0] at h
          cases hfc : findClose rest3 with
          | none => rw [hfc] at h; simp at h
          | some pr =>
              obtain ⟨code', rest4⟩ := pr
              rw [hfc] at h
              simp only [Option.some.injEq, Prod.mk.injEq] at h
              obtain ⟨hlang, hcode, hrest⟩ := h
              have htd := List.take_append_drop 3 cs
              rw [hticks] at htd
              have htw := List.takeWhile_append_dropWhile
                (p := isWordChar) (l := cs.drop 3)
              have hcl := findClose_append rest3 code' rest4 hfc
              have hlw : langChars lang = (cs.drop 3).takeWhile isWordChar := by
                rw [← hlang]
                by_cases hw : ((cs.drop 3).takeWhile isWordChar).isEmpty
                · rw [if_pos hw]
                  simp only [langChars]
                  rw [List.isEmpty_iff] at hw
                  exact hw.symm
                · rw [if_neg hw]
                  rfl
              rw [← hcode, ← hrest, hlw, ← hcl, ← hc0, ← hdrop,
                List.append_assoc, htw, htd]
        · rw [if_neg hc0] at h
          simp at h
  · rw [if_neg hticks] at h
    simp at h

/-- Soundness of `findMatch`: a match decomposes the text into the
unmatched part, the full fence, and the rest. -/
theorem findMatch_append (cs : List Char) :
    ∀ pre lang code rest, findMatch cs = some (pre, lang, code, rest) →
    cs = pre ++ ticks ++ langChars lang ++ '\n' :: (code ++ ticks ++ rest) := by
  induction cs with
  | nil => intro pre lang code rest h; simp [findMatch] at h
  | cons c cs ih =>
      intro pre lang code rest h
      rw [findMatch] at h
      cases hat : matchFenceAt (c :: cs) with
      | some p =>
          obtain ⟨lang', code', rest'⟩ := p
          rw [hat] at h
          simp only [Option.some.injEq, Prod.mk.injEq] at h
          obtain ⟨hpre, hlang, hcode, hrest⟩ := h
          subst hpre
          subst hlang
          subst hcode
          subst hrest
          simpa using matchFenceAt_append (c :: cs) _ _ _ hat
      | none =>
          rw [hat] at h
          cases hrec : findMatch cs with
          | none => rw [hrec] at h; simp at h
          | some q =>
              obtain ⟨pre', lang', code', rest'⟩ := q
              rw [hrec] at h
              simp only [Option.some.injEq, Prod.mk.injEq] at h
              obtain ⟨hpre, hlang, hcode, hrest⟩ := h
              subst hpre
              subst hlang
              subst hcode
              subst hrest
              have hcs := ih pre' _ _ _ hrec
              rw [List.cons_append, hcs]
              simp

/-- A match consumes at least the seven characters of an empty fence;
this bounds the recursion of `splitFence` and `fenceSegments`. -/
theorem findMatch_length (cs pre : List Char) (lang : Option (List Char))
    (code rest : List Char) (h : findMatch cs = some (pre, lang, code, rest)) :
    rest.length < cs.length := by
  have hc := findMatch_append cs pre lang code rest h
  rw [hc]
  simp only [List.length_append, List.length_cons, List.append_assoc, ticks,
    List.length_nil]
  omega

/-- An entry of the JavaScript array returned by
`text.split(/```(\w+)?\n([\s\S]*?)```/)`: a string, or `undefined` for a
capture group that did not participate in its match. -/
inductive JsVal where
  | undef
  | str (s : List Char)
deriving Repr, DecidableEq

/-- The array entry spliced in for the language capture group. -/
def jsOfLang : Option (List Char) → JsVal
  | none => .undef
  | some w => .str w

/-- `text.split(/```(\w+)?\n([\s\S]*?)```/)` (types.ts, line 190):
`String.prototype.split` with a regex containing capture groups splices
the captured groups between the separating substrings, so the resulting
array is `[text₀, lang₁, code₁, text₁, lang₂, code₂, …, textₙ]`. -/
def splitFence (cs : List Char) : List JsVal :=
  match h : findMatch cs with
  | none => [.str cs]
  | some (pre, lang, code, rest) =>
      .str pre :: jsOfLang lang :: .str code :: splitFence rest
termination_by cs.length
decreasing_by exact findMatch_length _ _ _ _ _ h

/-- The fence decomposition of a text: segments outside fences
alternating with fenced segments (language group and body). -/
inductive Seg where
  | outside (s : List Char)
  | fenced (lang : Option (List Char)) (code : List Char)
deriving Repr, DecidableEq

/-- The fence decomposition induced by the leftmost-match scan. -/
def fenceSegments (cs : List Char) : List Seg :=
  match h : findMatch cs with
  | none => [.outside cs]
  | some (pre, lang, code, rest) =>
      .outside pre :: .fenced lang code :: fenceSegments rest
termination_by cs.length
decreasing_by exact findMatch_length _ _ _ _ _ h

/-- `String.prototype.trim`: strip leading and trailing whitespace. -/
def jsTrim (s : List Char) : List Char :=
  ((s.dropWhile Char.isWhitespace).reverse.dropWhile Char.isWhitespace).reverse

/-- The default code-block label (types.ts, line 205). -/
def jsLang : List Char := "javascript".data

/-- JavaScript `v || dflt` on an array entry: `undefined` and the empty
string are falsy. -/
def jsValOr (v : JsVal) (dflt : List Char) : List Char :=
  match v with
  | .undef => dflt
  | .str s => if s.isEmpty then dflt else s

/-- What `formatDiagnosisText` renders: a prose span or a code block
labelled with a language. -/
inductive DiagElement where
  | prose (s : List Char)
  | codeBlock (language : List Char) (code : List Char)
deriving Repr, DecidableEq

/-- One iteration of the `for` loop of `formatDiagnosisText` (types.ts,
lines 193-237): indices `i % 3 === 0` hold plain text, pushed when its
trim is truthy; indices `i % 3 === 2` hold the code group, pushed as a
code block labelled `parts[i-1] || 'javascript'`; indices `i % 3 === 1`
hold the language group and are skipped.  The `.undef` fallbacks cover
array slots the loop never reads as text. -/
def loopBody (parts : List JsVal) (i : Nat) : Option DiagElement :=
  if i % 3 = 0 then
    match parts.getD i JsVal.undef with
    | .str s => if jsTrim s = [] then none else some (.prose s)
    | .undef => none
  else if i % 3 = 2 then
    match parts.getD i JsVal.undef with
    | .str code =>
        some (.codeBlock (jsValOr (parts.getD (i - 1) JsVal.undef) jsLang) code)
    | .undef => none
  else none

/-- The full element-collecting loop of `formatDiagnosisText`. -/
def processParts (parts : List JsVal) : List DiagElement :=
  (List.range parts.length).filterMap (loopBody parts)

/-- `formatDiagnosisText` (types.ts, lines 188-240): split at code
fences and render the parts in order. -/
def formatDiagnosisText (text : String) : List DiagElement :=
  processParts (splitFence text.data)

/-- Stated from the words of claim C3: a segment outside a fence is
rendered as prose unless whitespace-only, and a fenced segment is
rendered as a code block labelled with the captured language tag,
defaulting to `javascript` when none is present. -/
def renderSeg : Seg → Option DiagElement
  | .outside s => if jsTrim s = [] then none else some (.prose s)
  | .fenced lang code => some (.codeBlock (lang.getD jsLang) code)

/-- Stated from the words of claim C3 (see `renderSeg`). -/
def specFormat (text : String) : List DiagElement :=
  (fenceSegments text.data).filterMap renderSeg

/-- Reassemble a fence decomposition into the original text. -/
def rebuildSegs : List Seg → List Char
  | [] => []
  | .outside s :: rest => s ++ rebuildSegs rest
  | .fenced lang code :: rest =>
      ticks ++ langChars lang ++ '\n' :: (code ++ ticks ++ rebuildSegs rest)

/-- The elements contributed by an index `i % 3 = 0` array entry. -/
def procHead (a : JsVal) : List DiagElement :=
  match a with
  | .str s => if jsTrim s = [] then [] else [.prose s]
  | .undef => []

/-- The elements contributed by an index `i % 3 = 2` array entry `c`
with its preceding language entry `b`. -/
def procCode (b c : JsVal) : List DiagElement :=
  match c with
  | .str code => [.codeBlock (jsValOr b jsLang) code]
  | .undef => []

end Logos

namespace Logos

/-! ## Theorems for claims C1, C8 -/

/-- C1: for every outcome of the three concurrent fetches, `Dashboard`
sets the top-level error exactly when both the status fetch and the
dashboard-data fetch rejected, and otherwise substitutes `null` status,
an empty trace list and an empty intervention list for each rejected
fetch while keeping every fulfilled value. -/
theorem c1_dashboard_settle_semantics
    (s : Settled SystemStatus) (d : Settled DashboardData)
    (i : Settled (List InterventionEvent)) (st : DashState) :
    ((fetchData s d i st).error.isSome ↔
        s.isRejected = true ∧ d.isRejected = true)
    ∧ (∀ r, (fetchData (.rejected r) d i st).status = none)
    ∧ (∀ v, (fetchData (.fulfilled v) d i st).status = some v)
    ∧ (∀ r, (fetchData s (.rejected r) i st).traces = [])
    ∧ (∀ v, (fetchData s (.fulfilled v) i st).traces = v.traces)
    ∧ (∀ r, (fetchData s d (.rejected r) st).interventions = [])
    ∧ (∀ v, (fetchData s d (.fulfilled v) st).interventions = v.take 5) := by
  refine ⟨?_, fun r => rfl, fun v => rfl, fun r => rfl, fun v => rfl,
    fun r => rfl, fun v => rfl⟩
  cases s <;> cases d <;> simp [fetchData, Settled.isRejected]

/-! ### C2: pagination -/

theorem totalPages_eq_ceilDivNat (traces : List TraceRow) :
    totalPages traces = (traces.length + 9) / 10 := by
  unfold totalPages tracesPerPage
  rcases Nat.eq_zero_or_pos traces.length with h | h
  · simp [h]
  · set n := traces.length with hn
    have hq : (n + 9) / 10 ≠ 0 := by
      have h10 : 10 ≤ n + 9 := by omega
      omega
    rw [Nat.ceil_eq_iff hq]
    have hdm := Nat.div_add_mod (n + 9) 10
    have hmod : (n + 9) % 10 < 10 := Nat.mod_lt _ (by norm_num)
    set q := (n + 9) / 10 with hqdef
    have hten : ((10 : ℕ) : ℚ) = (10 : ℚ) := by norm_num
    constructor
    · rw [hten, lt_div_iff₀ (by norm_num : (0 : ℚ) < 10)]
      have : (q - 1) * 10 < n := by omega
      exact_mod_cast this
    · rw [hten, div_le_iff₀ (by norm_num : (0 : ℚ) < 10)]
      have : n ≤ q * 10 := by omega
      exact_mod_cast this

theorem take_min_length {α : Type} (l : List α) (k : Nat) :
    l.take (min l.length k) = l.take k := by
  rcases le_total k l.length with h | h
  · rw [min_eq_right h]
  · rw [min_eq_left h, List.take_length, List.take_of_length_le h]

theorem currentTraces_eq (traces : List TraceRow) (p : Int) (hp : 1 ≤ p) :
    currentTraces traces p =
      (traces.drop ((p - 1).toNat * 10)).take 10 := by
  simp only [currentTraces, jsSlice, startIndex, endIndex, jsIndex, tracesPerPage]
  have h1 : ¬ ((p - 1) * ((10 : Nat) : Int) + ((10 : Nat) : Int) < 0) := by push_cast; omega
  have h2 : ¬ ((p - 1) * ((10 : Nat) : Int) < 0) := by push_cast; omega
  rw [if_neg h1, if_neg h2]
  have h3 : ((p - 1) * ((10 : Nat) : Int) + ((10 : Nat) : Int)).toNat
      = (p - 1).toNat * 10 + 10 := by
    push_cast; omega
  have h4 : ((p - 1) * ((10 : Nat) : Int)).toNat = (p - 1).toNat * 10 := by
    push_cast; omega
  rw [h3, h4]
  set s := (p - 1).toNat * 10 with hs
  rw [take_min_length]
  rcases le_total s traces.length with hsl | hsl
  · rw [min_eq_right hsl, List.drop_take]
    congr 1
    omega
  · rw [min_eq_left hsl]
    have hL : (traces.take (s + 10)).drop traces.length = [] := by
      rw [List.drop_eq_nil_iff]
      exact le_trans (List.length_take_le' _ _) (le_refl _)
    have hR : traces.drop s = [] := List.drop_eq_nil_iff.mpr hsl
    rw [hL, hR, List.take_nil]

/-- C2: for every fetched trace list and every current page `p ≥ 1`, the
dashboard's client-side pagination shows exactly the traces at zero-based
indices `(p-1)*10` through `p*10 - 1`, with ten traces per page, a total
page count of `⌈length / 10⌉`, a Previous action clamped at page 1 and a
Next action clamped at the total page count. -/
theorem c2_pagination (traces : List TraceRow) (p : Int) (hp : 1 ≤ p) :
    C2Statement traces p := by
  have hslice := currentTraces_eq traces p hp
  refine ⟨hslice, ?_, rfl, totalPages_eq_ceilDivNat traces, ?_, ?_⟩
  · intro j
    rw [hslice]
    simp only [List.get?_eq_getElem?]
    by_cases hj : j < 10
    · rw [if_pos hj, List.getElem?_take_of_lt hj, List.getElem?_drop]
    · rw [if_neg hj]
      exact List.getElem?_take_eq_none (by omega)
  · exact le_max_left _ _
  · intro q
    exact min_le_left _ _

/-- Witness for C2 at a concrete input: the hypothesis `1 ≤ p` holds for
`p = 1` and the pagination property follows. -/
theorem c2_pagination_witness :
    (1 : Int) ≤ 1 ∧ C2Statement
      [{ trace_id := "t1", span_count := 2, error_count := 0, duration_ms := 5 }] 1 :=
  ⟨le_refl 1, c2_pagination _ 1 (le_refl 1)⟩

/-- C8: the interventions stored (and hence rendered) by the dashboard
are exactly the first five elements of the intervention-history response,
in response order; in particular at most five are shown. -/
theorem c8_interventions_first_five
    (s : Settled SystemStatus) (d : Settled DashboardData)
    (l : List InterventionEvent) (st : DashState) :
    (fetchData s d (.fulfilled l) st).interventions = l.take 5
    ∧ (fetchData s d (.fulfilled l) st).interventions.length ≤ 5
    ∧ (∀ j : Nat, j < 5 →
        (fetchData s d (.fulfilled l) st).interventions.get? j = l.get? j) := by
  refine ⟨rfl, ?_, ?_⟩
  · show (l.take 5).length ≤ 5
    simp [List.length_take]
  · intro j hj
    show (l.take 5).get? j = l.get? j
    simp [List.getElem?_take_of_lt hj]

/-! ### C4: zoom invariant -/

theorem agStep_zoom_bounds (v : AGView) (a : AGAction)
    (h1 : (0.1 : ℚ) ≤ v.zoom) (h2 : v.zoom ≤ 3) :
    (0.1 : ℚ) ≤ (agStep v a).zoom ∧ (agStep v a).zoom ≤ 3 := by
  cases a with
  | wheel d =>
      simp only [agStep]
      refine ⟨le_max_left _ _, max_le (by norm_num) (min_le_left _ _)⟩
  | zoomInBtn =>
      simp only [agStep]
      refine ⟨le_min (by norm_num) (by linarith), min_le_left _ _⟩
  | zoomOutBtn =>
      simp only [agStep]
      refine ⟨le_max_left _ _, max_le (by norm_num) ?_⟩
      rw [div_le_iff₀ (by norm_num : (0 : ℚ) < 1.2)]
      linarith
  | panDrag dx dy =>
      simp only [agStep]
      exact ⟨h1, h2⟩
  | resetBtn =>
      simp only [agStep]
      norm_num

theorem agRun_zoom_bounds (acts : List AGAction) :
    (0.1 : ℚ) ≤ (agRun acts).zoom ∧ (agRun acts).zoom ≤ 3 := by
  suffices h : ∀ v : AGView, (0.1 : ℚ) ≤ v.zoom → v.zoom ≤ 3 →
      (0.1 : ℚ) ≤ (acts.foldl agStep v).zoom ∧ (acts.foldl agStep v).zoom ≤ 3 by
    exact h agInitView (by norm_num [agInitView]) (by norm_num [agInitView])
  induction acts with
  | nil => intro v h1 h2; exact ⟨h1, h2⟩
  | cons a rest ih =>
      intro v h1 h2
      have hb := agStep_zoom_bounds v a h1 h2
      exact ih _ hb.1 hb.2

/-- C4: starting from the initial view, after every finite sequence of
wheel events, zoom-in/zoom-out button presses, pan drags and resets, the
zoom factor stays in `[0.1, 3]`; and the reset action always restores
zoom 1 and pan offsets `(0, 0)` exactly. -/
theorem c4_zoom_invariant (acts : List AGAction) :
    ((0.1 : ℚ) ≤ (agRun acts).zoom ∧ (agRun acts).zoom ≤ 3)
    ∧ (∀ v : AGView, agStep v .resetBtn = agInitView)
    ∧ (agStep (agRun acts) .resetBtn).zoom = 1
    ∧ (agStep (agRun acts) .resetBtn).panX = 0
    ∧ (agStep (agRun acts) .resetBtn).panY = 0 :=
  ⟨agRun_zoom_bounds acts, fun _ => rfl, rfl, rfl, rfl⟩

/-! ### C6: fetchJson error boundary -/

/-- C6: `fetchJson` throws an error naming the HTTP status code exactly
when the response is not ok and otherwise returns the parsed body
unchanged; and every component call site of the ApiClient — `TraceView`'s
`fetchTraceDetails`, `AgentGraph`'s `fetchGraphData`, and `Dashboard`'s
three settled fetches — converts a thrown error into an in-component
error or empty-state message instead of propagating it. -/
theorem c6_fetch_json_error_boundary {β : Type} (r : Response β)
    (resp : Response TracePayload) (st : TVState)
    (gresp : Response GraphData) (ast : AGState)
    (r1 : Response SystemStatus) (r2 : Response DashboardData)
    (r3 : Response (List InterventionEvent)) (dst : DashState) :
    (fetchJson r = Except.error ("HTTP error! status: " ++ toString r.status)
        ↔ r.ok = false)
    ∧ fetchJson r = (if r.ok then Except.ok r.body
        else Except.error ("HTTP error! status: " ++ toString r.status))
    ∧ (runFetchTraceDetails (getTraceDetails resp) st).error
        = (if resp.ok then none else some "Failed to fetch trace details")
    ∧ (runFetchTraceDetails (getTraceDetails resp) st).events
        = (if resp.ok then resp.body.events else st.events)
    ∧ (runFetchTraceDetails (getTraceDetails resp) st).loading = false
    ∧ (runFetchGraphData (getAgentGraph gresp) ast).error
        = (if gresp.ok then none else some "Failed to fetch agent graph")
    ∧ (runFetchGraphData (getAgentGraph gresp) ast).graphData
        = (if gresp.ok then
            some { nodes := positionNodes gresp.body.nodes gresp.body.edges,
                   edges := gresp.body.edges,
                   description := gresp.body.description }
          else ast.graphData)
    ∧ (runFetchGraphData (getAgentGraph gresp) ast).loading = false
    ∧ (fetchData (settledOf (getSystemStatus r1))
          (settledOf (getDashboardData r2))
          (settledOf (getInterventionHistory r3)) dst).error
        = (if !r1.ok && !r2.ok then some "Failed to fetch dashboard data"
          else none)
    ∧ (fetchData (settledOf (getSystemStatus r1))
          (settledOf (getDashboardData r2))
          (settledOf (getInterventionHistory r3)) dst).loading = false := by
  cases hok : r.ok <;> cases hok2 : resp.ok <;> cases hok3 : gresp.ok <;>
    cases h1 : r1.ok <;> cases h2 : r2.ok <;>
    simp [fetchJson, getTraceDetails, runFetchTraceDetails, getAgentGraph,
      runFetchGraphData, getSystemStatus, getDashboardData,
      getInterventionHistory, settledOf, fetchData, Settled.isRejected,
      Except.map, hok, hok2, hok3, h1, h2]

/-! ### C7: initial component-local view state -/

/-- C7: a freshly mounted `Dashboard` starts at page 1 with `loading`
true (and empty data), a freshly mounted `AgentGraph` starts with zoom 1,
pan offsets 0 and `loading` true, and a freshly mounted `TraceView`
starts with an empty expanded-preview set, an empty event list and
`loading` true; each of these is a fixed initial value owned by its
component's state record. -/
theorem c7_initial_component_state :
    dashboardInit.currentPage = 1 ∧ dashboardInit.loading = true
    ∧ dashboardInit.status = none ∧ dashboardInit.traces = []
    ∧ dashboardInit.interventions = [] ∧ dashboardInit.error = none
    ∧ agentGraphInit.view.zoom = 1 ∧ agentGraphInit.view.panX = 0
    ∧ agentGraphInit.view.panY = 0 ∧ agentGraphInit.loading = true
    ∧ agentGraphInit.graphData = none
    ∧ traceViewInit.expandedPreviews = ∅ ∧ traceViewInit.events = []
    ∧ traceViewInit.loading = true :=
  ⟨rfl, rfl, rfl, rfl, rfl, rfl, rfl, rfl, rfl, rfl, rfl, rfl, rfl, rfl⟩

/-! ### C9: ResultCard chart dispatch -/

/-- C9: for every payload with a `chartjs` field, `renderChart` renders a
`<Line>` exactly when the chart type lowercases to `"line"`, and a
`<Bar>` in every other case — including a missing type (defaulting to
`"bar"`) and the type `"pie"`; a `<Pie>` is never rendered. -/
theorem c9_render_chart_dispatch (cp : ChartPayload) :
    renderChart none = none
    ∧ (renderChart (some cp)).isSome = true
    ∧ ((∃ d o, renderChart (some cp) = some (.lineChart d o)) ↔
        jsToLower (jsStrOr cp.type "bar") = "line")
    ∧ (∀ d o, renderChart (some cp) ≠ some (.pieChart d o))
    ∧ (∀ d o, renderChart (some { type := none, data := d, options := o }) =
        some (.barChart (d.getD { labels := [], datasets := [] }) (o.getD [])))
    ∧ (∀ d o, renderChart (some { type := some "pie", data := d, options := o }) =
        some (.barChart (d.getD { labels := [], datasets := [] }) (o.getD []))) := by
  refine ⟨rfl, ?_, ⟨?_, ?_⟩, ?_, ?_, ?_⟩
  · by_cases hl : jsToLower (jsStrOr cp.type "bar") = "line" <;>
      simp [renderChart, hl]
  · rintro ⟨d, o, hd⟩
    by_contra hne
    simp [renderChart, hne] at hd
  · intro hl
    refine ⟨cp.data.getD { labels := [], datasets := [] }, cp.options.getD [], ?_⟩
    simp [renderChart, hl]
  · intro d o h
    by_cases hl : jsToLower (jsStrOr cp.type "bar") = "line" <;>
      simp [renderChart, hl] at h
  · intro d o
    simp [renderChart, jsStrOr]
    decide
  · intro d o
    simp [renderChart, jsStrOr]
    decide

/-! ### C10: derived statistics are total -/

/-- C10: the dashboard's derived statistics are total: the error rate is
the rounded percentage only on a non-empty trace list and 0 otherwise (so
it always lies in `[0, 100]` and no division by zero occurs),
`errorTraces` counts exactly the traces with positive `error_count`, and
Total Events is the database count when connected, the memory count when
not, and 0 without a status. -/
theorem c10_derived_statistics (traces : List TraceRow) (status : SystemStatus) :
    (0 ≤ errorRate traces ∧ errorRate traces ≤ 100)
    ∧ errorRate [] = 0
    ∧ errorTraces traces = (traces.filter (fun t => 0 < t.error_count)).length
    ∧ errorTraces traces ≤ traces.length
    ∧ totalTraces none = 0
    ∧ totalTraces (some status) = (if status.database.connected
        then status.database.trace_count else status.memory.trace_count) := by
  have hk : errorTraces traces ≤ traces.length := List.length_filter_le _ _
  refine ⟨?_, rfl, rfl, hk, rfl, rfl⟩
  rcases Nat.eq_zero_or_pos traces.length with h | h
  · simp [errorRate, h]
  · unfold errorRate
    rw [if_pos h]
    have hn : (0 : ℚ) < (traces.length : ℚ) := by exact_mod_cast h
    have hkq : ((errorTraces traces : ℚ)) ≤ (traces.length : ℚ) := by
      exact_mod_cast hk
    have hq0 : (0 : ℚ) ≤ (errorTraces traces : ℚ) / (traces.length : ℚ) * 100 := by
      positivity
    have hq1 : (errorTraces traces : ℚ) / (traces.length : ℚ) * 100 ≤ 100 := by
      rw [div_mul_eq_mul_div, div_le_iff₀ hn]
      nlinarith
    constructor
    · rw [round_eq]
      exact Int.le_floor.mpr (by push_cast; linarith)
    · rw [round_eq]
      have hfl : ⌊(errorTraces traces : ℚ) / (traces.length : ℚ) * 100 + 1 / 2⌋
          < (101 : ℤ) := by
        rw [Int.floor_lt]
        push_cast
        linarith
      omega

/-! ### C5: positionNodes layout -/

theorem setPos_setPos (n : Node) (p q : Nat × Nat) :
    setPos (setPos n q) p = setPos n p := rfl

/-- Building the map from a list of nodes with pairwise-distinct ids
performs no overwrites: it appends one entry per node, in order. -/
theorem buildNodeMap_go (nodes : List Node) (acc : NodeMap)
    (hdisj : ∀ n ∈ nodes, ∀ e ∈ acc, e.1 ≠ n.id)
    (hnd : (nodes.map Node.id).Nodup) :
    nodes.foldl (fun m n => mapSet m n.id n) acc
      = acc ++ nodes.map (fun n => (n.id, n)) := by
  induction nodes generalizing acc with
  | nil => simp
  | cons n rest ih =>
      have hnd' : (∀ x ∈ rest, ¬ x.id = n.id)
          ∧ (List.map Node.id rest).Nodup := by simpa using hnd
      have hnotin : ¬ acc.any (fun e => e.1 = n.id) = true := by
        simp only [List.any_eq_true, decide_eq_true_eq, not_exists, not_and]
        intro e he hh
        exact hdisj n (by simp) e he hh
      simp only [List.foldl_cons]
      rw [show mapSet acc n.id n = acc ++ [(n.id, n)] from by
        unfold mapSet; rw [if_neg hnotin]]
      rw [ih (acc ++ [(n.id, n)]) ?_ hnd'.2]
      · simp
      · intro m hm e he
        rcases List.mem_append.mp he with h | h
        · exact hdisj m (List.mem_cons_of_mem _ hm) e h
        · have he2 : e = (n.id, n) := by simpa using h
          subst he2
          intro hc
          exact hnd'.1 m hm (by simpa using hc.symm)

theorem buildNodeMap_of_nodup (nodes : List Node)
    (hnd : (nodes.map Node.id).Nodup) :
    buildNodeMap nodes = nodes.map (fun n => (n.id, n)) := by
  unfold buildNodeMap
  simpa using buildNodeMap_go nodes [] (by simp) hnd

/-- The `forEach` loop over `todo` updates exactly the map entries whose
key is an id occurring in `todo`, setting their coordinates to the target
position of that key. -/
theorem foldl_loopStep (nodes : List Node) (todo : List Node) :
    ∀ m : NodeMap,
    todo.foldl (loopStep nodes) m
      = m.map (fun e => if e.1 ∈ todo.map Node.id
          then (e.1, setPos e.2 (targetPos nodes e.1)) else e) := by
  induction todo with
  | nil =>
      intro m
      simp
  | cons n rest ih =>
      intro m
      rw [List.foldl_cons, ih (loopStep nodes m n)]
      unfold loopStep
      by_cases hmem : m.any (fun e => e.1 = n.id) = true
      · rw [if_pos hmem, List.map_map]
        apply List.map_congr_left
        intro e _
        simp only [Function.comp_apply, List.map_cons, List.mem_cons]
        by_cases hk : e.1 = n.id
        · rw [if_pos hk]
          by_cases hr : e.1 ∈ rest.map Node.id
          · rw [if_pos (show (e.1, setPos e.2 (targetPos nodes n.id)).1 ∈
                rest.map Node.id from hr), if_pos (Or.inl hk)]
            simp [setPos_setPos, hk]
          · rw [if_neg (show ¬ (e.1, setPos e.2 (targetPos nodes n.id)).1 ∈
                rest.map Node.id from hr), if_pos (Or.inl hk)]
            simp [hk]
        · rw [if_neg hk]
          by_cases hr : e.1 ∈ rest.map Node.id
          · rw [if_pos hr, if_pos (Or.inr hr)]
          · rw [if_neg hr, if_neg (by simp [hk, hr])]
      · rw [if_neg hmem]
        apply List.map_congr_left
        intro e he
        have hne : ¬ e.1 = n.id := by
          simp only [List.any_eq_true, decide_eq_true_eq, not_exists,
            not_and] at hmem
          exact hmem e he
        simp only [List.map_cons, List.mem_cons]
        by_cases hr : e.1 ∈ rest.map Node.id
        · rw [if_pos hr, if_pos (Or.inr hr)]
        · rw [if_neg hr, if_neg (by simp [hne, hr])]

/-- `findIndex` on a list with pairwise-distinct ids finds the node's own
position. -/
theorem findIdx_append_cons (front rest : List Node) (n : Node)
    (hnotin : n.id ∉ front.map Node.id) :
    (front ++ n :: rest).findIdx (fun m => m.id == n.id) = front.length := by
  induction front with
  | nil => simp [List.findIdx_cons]
  | cons f fr ih =>
      have hnotin' : ¬ n.id = f.id ∧ n.id ∉ fr.map Node.id := by
        simpa [not_or] using hnotin
      have hf : (f.id == n.id) = false := by
        simp only [beq_eq_false_iff_ne, ne_eq]
        exact fun h => hnotin'.1 h.symm
      simp only [List.cons_append, List.findIdx_cons, hf, cond_false,
        List.length_cons]
      rw [ih hnotin'.2]

theorem map_targetPos_eq_claimAux (nodes : List Node)
    (hnd : (nodes.map Node.id).Nodup) :
    ∀ (front rest : List Node), nodes = front ++ rest →
    rest.map (fun n => setPos n (targetPos nodes n.id))
      = claimPositionAux front.length rest := by
  intro front rest
  induction rest generalizing front with
  | nil => intro _; simp [claimPositionAux]
  | cons n rs ih =>
      intro h
      have hnotin : n.id ∉ front.map Node.id := by
        subst h
        simp only [List.map_append, List.nodup_append] at hnd
        intro hc
        exact hnd.2.2 hc (by simp)
      simp only [List.map_cons, claimPositionAux]
      refine congrArg₂ List.cons ?_ ?_
      · unfold targetPos
        cases hp : positions n.id with
        | some p => rfl
        | none =>
            have hidx : nodes.findIdx (fun m => m.id == n.id) = front.length := by
              rw [h]
              exact findIdx_append_cons front rs n hnotin
            rw [hidx]
      · have := ih (front ++ [n]) (by simpa using h)
        simpa using this

/-- The amended C5: on a node list whose ids are pairwise distinct,
`positionNodes` assigns the lookup-table coordinates to the eight known
workflow ids and the fallback coordinates
`(100 + (i % 5) * 150, 100 + ⌊i / 5⌋ * 100)` to every other node at input
index `i`, preserving every node's id, label and type. -/
theorem c5_position_nodes_nodup (nodes : List Node) (edges : List Edge)
    (hnd : (nodes.map Node.id).Nodup) : C5Statement nodes edges := by
  show positionNodes nodes edges = claimPositionNodes nodes
  simp only [positionNodes]
  rw [buildNodeMap_of_nodup nodes hnd, foldl_loopStep, List.map_map,
    List.map_map]
  refine Eq.trans (List.map_congr_left ?_)
    (map_targetPos_eq_claimAux nodes hnd [] nodes rfl)
  intro n hn
  have hmem : n.id ∈ nodes.map Node.id := List.mem_map_of_mem Node.id hn
  simp only [Function.comp_apply]
  rw [if_pos hmem]

/-- Counterexample to C5 as stated: two nodes sharing the id `"dup"`.
The JavaScript `Map` keeps a single entry (the last value at the first
insertion position) and `findIndex` returns the first matching index, so
`positionNodes` returns one node positioned at index 0, while the claim
predicts two nodes with the second at index 1. -/
theorem c5_counterexample :
    ¬ C5Statement
      [{ id := "dup", label := "A", type := "agent" },
       { id := "dup", label := "B", type := "agent" }] [] := by
  unfold C5Statement
  decide

/-- Witness for the amended C5 at a concrete input with distinct ids (one
known workflow id, one unknown id). -/
theorem c5_position_nodes_nodup_witness :
    (([{ id := "__start__", label := "S", type := "control" },
       { id := "custom", label := "C", type := "agent" }] : List Node).map
        Node.id).Nodup
    ∧ C5Statement
        [{ id := "__start__", label := "S", type := "control" },
         { id := "custom", label := "C", type := "agent" }] [] :=
  ⟨by decide, c5_position_nodes_nodup _ _ (by decide)⟩


/-! ### C3: formatDiagnosisText -/

theorem matchFenceAt_lang (cs : List Char) (w : List Char)
    (code rest : List Char) (h : matchFenceAt cs = some (some w, code, rest)) :
    w ≠ [] := by
  unfold matchFenceAt at h
  by_cases hticks : cs.take 3 = ticks
  · rw [if_pos hticks] at h
    cases hdrop : (cs.drop 3).dropWhile isWordChar with
    | nil => rw [hdrop] at h; simp at h
    | cons c0 rest3 =>
        rw [hdrop] at h
        simp only [] at h
        by_cases hc0 : c0 = '\n'
        · rw [if_pos hc0] at h
          cases hfc : findClose rest3 with
          | none => rw [hfc] at h; simp at h
          | some pr =>
              obtain ⟨code', rest4⟩ := pr
              rw [hfc] at h
              simp only [Option.some.injEq, Prod.mk.injEq] at h
              obtain ⟨hlang, hcode, hrest⟩ := h
              by_cases hw : ((cs.drop 3).takeWhile isWordChar).isEmpty
              · rw [if_pos hw] at hlang
                simp at hlang
              · rw [if_neg hw] at hlang
                have hweq : (cs.drop 3).takeWhile isWordChar = w := by
                  simpa using hlang
                rw [← hweq]
                simpa [List.isEmpty_iff] using hw
        · rw [if_neg hc0] at h
          simp at h
  · rw [if_neg hticks] at h
    simp at h

theorem findMatch_lang (cs : List Char) :
    ∀ pre (w : List Char) code rest,
    findMatch cs = some (pre, some w, code, rest) → w ≠ [] := by
  induction cs with
  | nil => intro pre w code rest h; simp [findMatch] at h
  | cons c cs ih =>
      intro pre w code rest h
      rw [findMatch] at h
      cases hat : matchFenceAt (c :: cs) with
      | some p =>
          obtain ⟨lang', code', rest'⟩ := p
          rw [hat] at h
          simp only [Option.some.injEq, Prod.mk.injEq] at h
          obtain ⟨hpre, hlang, hcode, hrest⟩ := h
          subst hlang
          subst hcode
          subst hrest
          exact matchFenceAt_lang (c :: cs) _ _ _ hat
      | none =>
          rw [hat] at h
          cases hrec : findMatch cs with
          | none => rw [hrec] at h; simp at h
          | some q =>
              obtain ⟨pre', lang', code', rest'⟩ := q
              rw [hrec] at h
              simp only [Option.some.injEq, Prod.mk.injEq] at h
              obtain ⟨hpre, hlang, hcode, hrest⟩ := h
              subst hlang
              subst hcode
              subst hrest
              exact ih pre' _ _ _ hrec

theorem splitFence_none (cs : List Char) (h : findMatch cs = none) :
    splitFence cs = [.str cs] := by
  rw [splitFence, h]

theorem splitFence_some (cs pre : List Char) (lang : Option (List Char))
    (code rest : List Char) (h : findMatch cs = some (pre, lang, code, rest)) :
    splitFence cs = .str pre :: jsOfLang lang :: .str code :: splitFence rest := by
  rw [splitFence, h]

theorem fenceSegments_none (cs : List Char) (h : findMatch cs = none) :
    fenceSegments cs = [.outside cs] := by
  rw [fenceSegments, h]

theorem fenceSegments_some (cs pre : List Char) (lang : Option (List Char))
    (code rest : List Char) (h : findMatch cs = some (pre, lang, code, rest)) :
    fenceSegments cs = .outside pre :: .fenced lang code :: fenceSegments rest := by
  rw [fenceSegments, h]

theorem getD_add3 (a b c : JsVal) (tl : List JsVal) (i : Nat) (d : JsVal) :
    (a :: b :: c :: tl).getD (3 + i) d = tl.getD i d := by
  have h1 : 3 + i = (i + 2) + 1 := by omega
  rw [h1, List.getD_cons_succ]
  have h2 : i + 2 = (i + 1) + 1 := by omega
  rw [h2, List.getD_cons_succ, List.getD_cons_succ]

theorem loopBody_shift (a b c : JsVal) (tl : List JsVal) (i : Nat) :
    loopBody (a :: b :: c :: tl) (3 + i) = loopBody tl i := by
  unfold loopBody
  have hmod : (3 + i) % 3 = i % 3 := Nat.add_mod_left 3 i
  rw [hmod, getD_add3]
  by_cases h0 : i % 3 = 0
  · rw [if_pos h0, if_pos h0]
  · rw [if_neg h0, if_neg h0]
    by_cases h2 : i % 3 = 2
    · rw [if_pos h2, if_pos h2]
      have hsub : 3 + i - 1 = 3 + (i - 1) := by omega
      rw [hsub, getD_add3]
    · rw [if_neg h2, if_neg h2]

theorem processParts_singleton (a : JsVal) :
    processParts [a] = procHead a := by
  cases a with
  | undef => rfl
  | str s =>
      by_cases ht : jsTrim s = [] <;>
        simp [processParts, loopBody, procHead, ht, List.range_succ]

theorem processParts_cons3 (a b c : JsVal) (tl : List JsVal) :
    processParts (a :: b :: c :: tl)
      = procHead a ++ procCode b c ++ processParts tl := by
  unfold processParts
  have hlen : (a :: b :: c :: tl).length = 3 + tl.length := by
    simp
    omega
  rw [hlen, List.range_add, List.filterMap_append, List.filterMap_map]
  have hcomp : loopBody (a :: b :: c :: tl) ∘ (fun i => 3 + i) = loopBody tl := by
    funext i
    exact loopBody_shift a b c tl i
  rw [hcomp]
  congr 1
  have hr3 : List.range 3 = [0, 1, 2] := rfl
  rw [hr3]
  cases a with
  | undef =>
      cases c with
      | undef => simp [List.filterMap_cons, loopBody, procHead, procCode]
      | str code => simp [List.filterMap_cons, loopBody, procHead, procCode]
  | str s =>
      by_cases ht : jsTrim s = [] <;> cases c <;>
        simp [List.filterMap_cons, loopBody, procHead, procCode, ht]

theorem rebuildSegs_fenceSegments (cs : List Char) :
    rebuildSegs (fenceSegments cs) = cs := by
  generalize hn : cs.length = n
  induction n using Nat.strong_induction_on generalizing cs with
  | _ n ih =>
      cases hm : findMatch cs with
      | none =>
          rw [fenceSegments_none cs hm]
          simp [rebuildSegs]
      | some q =>
          obtain ⟨pre, lang, code, rest⟩ := q
          rw [fenceSegments_some cs _ _ _ _ hm]
          have hrec : rebuildSegs (fenceSegments rest) = rest :=
            ih rest.length (hn ▸ findMatch_length _ _ _ _ _ hm) rest rfl
          rw [findMatch_append cs _ _ _ _ hm]
          simp [rebuildSegs, hrec, List.append_assoc]

theorem processParts_fenceSegments (cs : List Char) :
    processParts (splitFence cs) = (fenceSegments cs).filterMap renderSeg := by
  generalize hn : cs.length = n
  induction n using Nat.strong_induction_on generalizing cs with
  | _ n ih =>
      cases hm : findMatch cs with
      | none =>
          rw [splitFence_none cs hm, fenceSegments_none cs hm,
            processParts_singleton, List.filterMap_cons, List.filterMap_nil]
          by_cases ht : jsTrim cs = [] <;> simp [procHead, renderSeg, ht]
      | some q =>
          obtain ⟨pre, lang, code, rest⟩ := q
          rw [splitFence_some cs _ _ _ _ hm, fenceSegments_some cs _ _ _ _ hm,
            processParts_cons3, List.filterMap_cons, List.filterMap_cons]
          have hrec : processParts (splitFence rest)
              = (fenceSegments rest).filterMap renderSeg :=
            ih rest.length (hn ▸ findMatch_length _ _ _ _ _ hm) rest rfl
          have hlangeq : jsValOr (jsOfLang lang) jsLang = lang.getD jsLang := by
            cases lang with
            | none => rfl
            | some w =>
                have hw : w ≠ [] := findMatch_lang cs _ _ _ _ hm
                simp [jsValOr, jsOfLang, List.isEmpty_iff, hw]
          by_cases htp : jsTrim pre = [] <;>
            simp [procHead, procCode, renderSeg, htp, hlangeq, hrec]


/-- C3: `formatDiagnosisText` splits its input by triple-backtick fences
using the single regex, renders every segment outside a fence as prose
(dropping whitespace-only segments), renders every fenced segment as a
code block labelled with the language tag captured after the opening
fence (defaulting to `javascript` when absent), with prose and code in
original text order; and the fence decomposition it renders reassembles
exactly to the input text. -/
theorem c3_format_diagnosis_text (text : String) :
    formatDiagnosisText text = specFormat text
    ∧ rebuildSegs (fenceSegments text.data) = text.data :=
  ⟨processParts_fenceSegments text.data, rebuildSegs_fenceSegments text.data⟩

end Logos
